import Mathlib

/-!
Verification of the Conway Game of Life engine (`src/matrix.rs`,
`src/game_of_life.rs`) against its design specification.

Shallow embedding conventions:
* `u8` cell values are `Nat` (no arithmetic is ever performed on cells, only
  comparison with 1, so no wrap-around modelling is needed).
* `Vec<u8>` is `List Nat`.
* A Rust panic (out-of-bounds index, `unwrap` on `None`, integer division by
  zero) is modelled by `Option`/`none`: a function that can panic returns
  `Option _` and yields `none` exactly when the Rust code would panic.
* The `rayon` data-parallel loop and the scoped native threads write disjoint
  regions of the scratch buffer while reading the immutable current grid, so
  their net effect is linearized as a deterministic left-to-right pass over
  the written indices; this is the standard sequentialization of a
  data-race-free parallel map.
-/

namespace Gol

/-- `Matrix` from `src/matrix.rs`: row-major flat cell storage. -/
structure Matrix where
  rows : Nat
  cols : Nat
  matrix : List Nat
deriving DecidableEq

/-- `Matrix::new`: `rows * cols` zeroed cells. -/
def Matrix.new (rows cols : Nat) : Matrix :=
  { rows := rows, cols := cols, matrix := List.replicate (rows * cols) 0 }

/-- `Matrix::size`. -/
def Matrix.size (m : Matrix) : Nat :=
  m.rows * m.cols

/-- `Matrix::inverse_idx`.  In Rust `idx / self.cols` panics when
`cols = 0`; the engine only calls this with `idx < size`, which forces
`cols > 0`, so the Lean total-division default is never observable. -/
def Matrix.inverse_idx (m : Matrix) (idx : Nat) : Nat × Nat :=
  (idx / m.cols, idx % m.cols)

/-- `Matrix::idx`. -/
def Matrix.idx (m : Matrix) (row col : Nat) : Nat :=
  row * m.cols + col

/-- `Matrix::get`.  `self.matrix[idx]` panics when `idx` is out of the
storage bounds; the panic is modelled as `none`. -/
def Matrix.get (m : Matrix) (row col : Nat) : Option Nat :=
  m.matrix[m.idx row col]?

/-- `MatrixVisitor::visit_seq` from the `Deserialize` impl: no shape or
value validation happens; `rows` is the row count, `cols` the length of the
first row (0 if there is none), storage the concatenation of all rows. -/
def MatrixVisitor.visit_seq (input : List (List Nat)) : Matrix :=
  { rows := input.length
    cols := (input.head?.map List.length).getD 0
    matrix := input.flatten }

/-- The serde entry point for `Matrix` deserialization.  Each row is parsed
by `next_element::<Vec<u8>>()?`, which fails (propagating a decode error)
exactly when some entry is not a `u8`; any list of in-range rows is then
accepted verbatim by `visit_seq`. -/
def Matrix.deserialize (input : List (List Nat)) : Except String Matrix :=
  if input.all (fun row => row.all (fun v => v < 256)) then
    Except.ok (MatrixVisitor.visit_seq input)
  else
    Except.error "json decode exception"

/-- `let row_inc = if row == rows - 1 { 0 } else { row + 1 }` from
`write_loopback_next_tick_state` (and the analogous `col_inc`). -/
def wrap_inc (dim coord : Nat) : Nat :=
  if coord = dim - 1 then 0 else coord + 1

/-- `let row_dec = if row == 0 { rows - 1 } else { row - 1 }` from
`write_loopback_next_tick_state` (and the analogous `col_dec`). -/
def wrap_dec (dim coord : Nat) : Nat :=
  if coord = 0 then dim - 1 else coord - 1

/-- One `if matrix.get(r, c) == 1 { live_count += 1 }` step
(the unguarded form used by the loopback rule). -/
def live_add (m : Matrix) (row col acc : Nat) : Option Nat :=
  match m.get row col with
  | none => none
  | some v => some (if v == 1 then acc + 1 else acc)

/-- One `if guard && matrix.get(r, c) == 1 { live_count += 1 }` step of the
terminating rule: `&&` short-circuits, so the cell is read only when the
bounds guard holds. -/
def guarded_live_add (cond : Prop) [Decidable cond] (m : Matrix) (row col acc : Nat) :
    Option Nat :=
  if cond then live_add m row col acc else some acc

/-- `GameOfLife::write_terminate_next_tick_state`: neighbor reads in source
order, each protected by its bounds guard, then the B3/S23 branch. -/
def write_terminate_next_tick_state (m : Matrix) (idx : Nat) : Option Nat :=
  let rows := m.rows
  let cols := m.cols
  let rc := m.inverse_idx idx
  let row := rc.1
  let col := rc.2
  do
    let lc ← guarded_live_add (row < rows - 1 ∧ col < cols - 1) m (row + 1) (col + 1) 0
    let lc ← guarded_live_add (0 < row ∧ 0 < col) m (row - 1) (col - 1) lc
    let lc ← guarded_live_add (row < rows - 1 ∧ 0 < col) m (row + 1) (col - 1) lc
    let lc ← guarded_live_add (0 < row ∧ col < cols - 1) m (row - 1) (col + 1) lc
    let lc ← guarded_live_add (col < cols - 1) m row (col + 1) lc
    let lc ← guarded_live_add (0 < col) m row (col - 1) lc
    let lc ← guarded_live_add (row < rows - 1) m (row + 1) col lc
    let lc ← guarded_live_add (0 < row) m (row - 1) col lc
    let cur ← m.get row col
    pure (if cur == 1 then (if lc < 2 ∨ 3 < lc then 0 else 1)
          else (if lc == 3 then 1 else 0))

/-- `GameOfLife::write_loopback_next_tick_state`: wrapped coordinates, eight
unconditional neighbor reads in source order, then the B3/S23 branch. -/
def write_loopback_next_tick_state (m : Matrix) (idx : Nat) : Option Nat :=
  let rows := m.rows
  let cols := m.cols
  let rc := m.inverse_idx idx
  let row := rc.1
  let col := rc.2
  let row_inc := wrap_inc rows row
  let row_dec := wrap_dec rows row
  let col_inc := wrap_inc cols col
  let col_dec := wrap_dec cols col
  do
    let lc ← live_add m row_inc col_inc 0
    let lc ← live_add m row_dec col_dec lc
    let lc ← live_add m row_inc col_dec lc
    let lc ← live_add m row_dec col_inc lc
    let lc ← live_add m row col_inc lc
    let lc ← live_add m row col_dec lc
    let lc ← live_add m row_inc col lc
    let lc ← live_add m row_dec col lc
    let cur ← m.get row col
    pure (if cur == 1 then (if lc < 2 ∨ 3 < lc then 0 else 1)
          else (if lc == 3 then 1 else 0))

/-- `GameOfLife::write_next_tick_state`: boundary-policy dispatch. -/
def write_next_tick_state (loopback : Bool) (m : Matrix) (idx : Nat) : Option Nat :=
  if loopback then write_loopback_next_tick_state m idx
  else write_terminate_next_tick_state m idx

/-- The configuration fields of `GameOfLifeArgs` that reach the engine
(`initial_file` is an external collaborator: it only determines the initial
matrix, which is passed to `from_args` separately below). -/
structure GameOfLifeArgs where
  rows : Nat
  cols : Nat
  loopback : Bool
  parallel : Bool
  parallel_naive : Bool
  workers : Nat
deriving DecidableEq

/-- `GameOfLife` simulation state. -/
structure GameOfLife where
  rows : Nat
  cols : Nat
  matrix : Matrix
  backup_matrix : Matrix
  ticks : Nat
  parallel : Bool
  parallel_naive : Bool
  workers : Nat
  loopback : Bool
deriving DecidableEq

/-- `GameOfLife::from_args`.  The seeding of the initial matrix (random fill
or JSON file load) is an external collaborator; the matrix it produced is
the `initial` argument.  Note that no field of `args` is validated. -/
def GameOfLife.from_args (args : GameOfLifeArgs) (initial : Matrix) : GameOfLife :=
  { rows := initial.rows
    cols := initial.cols
    matrix := initial
    backup_matrix := Matrix.new initial.rows initial.cols
    ticks := 0
    parallel := args.parallel
    parallel_naive := args.parallel_naive
    workers := args.workers
    loopback := args.loopback }

/-- The write loop shared by `serial_tick` (over the whole index range) and
by each native worker of `parallel_naive_tick` (over its chunk): for each
`idx` in `[start, start + len)`, obtain the scratch slot
(`get_mut(idx).unwrap()` / the worker's slice — a panic or out-of-bounds
slice is `none`) and store `write_next_tick_state` for that index. -/
def writeCells (loopback : Bool) (m : Matrix) : Nat → Nat → List Nat → Option (List Nat)
  | _, 0, backup => some backup
  | start, len + 1, backup =>
    if start < backup.length then
      match write_next_tick_state loopback m start with
      | none => none
      | some v => writeCells loopback m (start + 1) len (backup.set start v)
    else none

/-- The rayon loop of `parallel_tick`:
`backup.par_iter_mut().enumerate().for_each(...)` writes every scratch slot
from the immutable current matrix; linearized as a map over positions. -/
def par_write_cells (loopback : Bool) (m : Matrix) : Nat → List Nat → Option (List Nat)
  | _, [] => some []
  | i, _v :: rest =>
    match write_next_tick_state loopback m i with
    | none => none
    | some v =>
      match par_write_cells loopback m (i + 1) rest with
      | none => none
      | some rest2 => some (v :: rest2)

/-- `let start = i * chunk_size` with `chunk_size = size / workers`, from
`parallel_naive_tick`. -/
def chunk_start (size workers i : Nat) : Nat :=
  i * (size / workers)

/-- `let end = if i == workers - 1 { size } else { start + chunk_size }`
from `parallel_naive_tick`. -/
def chunk_end (size workers i : Nat) : Nat :=
  if i = workers - 1 then size else chunk_start size workers i + size / workers

/-- The scoped worker threads of `parallel_naive_tick`: worker `i` writes
scratch indices `[chunk_start i, chunk_end i)`.  The chunks are disjoint and
the current matrix is read-only, so joining the threads is linearized as
processing the chunks in index order. -/
def run_chunks (loopback : Bool) (m : Matrix) (size workers : Nat) :
    List Nat → List Nat → Option (List Nat)
  | [], backup => some backup
  | i :: rest, backup =>
    match writeCells loopback m (chunk_start size workers i)
        (chunk_end size workers i - chunk_start size workers i) backup with
    | none => none
    | some b2 => run_chunks loopback m size workers rest b2

/-- `GameOfLife::serial_tick`:  bump the counter, write every scratch cell
for `idx` in `0..size`, swap the two matrices. -/
def serial_tick (g : GameOfLife) : Option GameOfLife :=
  match writeCells g.loopback g.matrix 0 g.matrix.size g.backup_matrix.matrix with
  | none => none
  | some b =>
    some { g with
      ticks := g.ticks + 1
      matrix := { rows := g.backup_matrix.rows, cols := g.backup_matrix.cols, matrix := b }
      backup_matrix := g.matrix }

/-- `GameOfLife::parallel_tick`: rayon fan-out over the scratch buffer,
then swap. -/
def parallel_tick (g : GameOfLife) : Option GameOfLife :=
  match par_write_cells g.loopback g.matrix 0 g.backup_matrix.matrix with
  | none => none
  | some b =>
    some { g with
      ticks := g.ticks + 1
      matrix := { rows := g.backup_matrix.rows, cols := g.backup_matrix.cols, matrix := b }
      backup_matrix := g.matrix }

/-- `GameOfLife::parallel_naive_tick`: `chunk_size = size / workers` panics
on `workers == 0` (integer division by zero), hence `none`; otherwise the
`workers` scoped threads each write their chunk, and the matrices swap. -/
def parallel_naive_tick (g : GameOfLife) : Option GameOfLife :=
  if g.workers = 0 then none
  else
    match run_chunks g.loopback g.matrix g.matrix.size g.workers
        (List.range g.workers) g.backup_matrix.matrix with
    | none => none
    | some b =>
      some { g with
        ticks := g.ticks + 1
        matrix := { rows := g.backup_matrix.rows, cols := g.backup_matrix.cols, matrix := b }
        backup_matrix := g.matrix }

/-- `GameOfLife::tick`: strategy dispatch. -/
def GameOfLife.tick (g : GameOfLife) : Option GameOfLife :=
  if g.parallel_naive then parallel_naive_tick g
  else if g.parallel then parallel_tick g
  else serial_tick g

/-!  Specification-side definitions (from the spec's words, for the claims
to compare the code against). -/

/-- The 8 Moore-neighborhood offsets, listed in the order the source reads
them. -/
def moore_offsets : List (Int × Int) :=
  [(1, 1), (-1, -1), (1, -1), (-1, 1), (0, 1), (0, -1), (1, 0), (-1, 0)]

/-- Whether the cell at a coordinate pair holds 1 (reads outside storage
count as dead; the claims only apply this in range). -/
def cell_live (m : Matrix) (rc : Nat × Nat) : Bool :=
  (m.get rc.1 rc.2).getD 0 == 1

/-- Modelled from the spec (Terminating policy): the number of Moore
offsets whose coordinate lands inside `[0,rows) × [0,cols)` and whose cell
is live. -/
def terminate_live_neighbors (m : Matrix) (row col : Nat) : Nat :=
  (moore_offsets.map (fun p =>
    let r : Int := (row : Int) + p.1
    let c : Int := (col : Int) + p.2
    if (0 ≤ r ∧ r < (m.rows : Int) ∧ 0 ≤ c ∧ c < (m.cols : Int)) ∧
        cell_live m (r.toNat, c.toNat) then 1 else 0)).sum

/-- Modelled from the spec (Toroidal policy): wrap a coordinate via
`(coord + dim) % dim`. -/
def wrap_mod (dim : Nat) (coord : Int) : Nat :=
  (coord + dim).toNat % dim

/-- Modelled from the spec (Toroidal policy): the 8 Moore offsets reduced
modulo the grid dimensions. -/
def loopback_spec_neighbor_coords (m : Matrix) (row col : Nat) : List (Nat × Nat) :=
  moore_offsets.map (fun p =>
    (wrap_mod m.rows ((row : Int) + p.1), wrap_mod m.cols ((col : Int) + p.2)))

/-- The neighbor coordinates `write_loopback_next_tick_state` actually
consults, in read order. -/
def loopback_neighbor_coords (m : Matrix) (row col : Nat) : List (Nat × Nat) :=
  [(wrap_inc m.rows row, wrap_inc m.cols col),
   (wrap_dec m.rows row, wrap_dec m.cols col),
   (wrap_inc m.rows row, wrap_dec m.cols col),
   (wrap_dec m.rows row, wrap_inc m.cols col),
   (row, wrap_inc m.cols col),
   (row, wrap_dec m.cols col),
   (wrap_inc m.rows row, col),
   (wrap_dec m.rows row, col)]

/-- Modelled from the spec: live-neighbor count of a cell under the active
boundary policy. -/
def live_neighbors (loopback : Bool) (m : Matrix) (row col : Nat) : Nat :=
  if loopback then (loopback_spec_neighbor_coords m row col).countP (cell_live m)
  else terminate_live_neighbors m row col

/-- Modelled from the spec: the B3/S23 decision table — a live cell
survives on 2 or 3 live neighbors, a dead cell is born on exactly 3. -/
def b3s23 (cur live : Nat) : Nat :=
  if cur = 1 then (if live = 2 ∨ live = 3 then 1 else 0)
  else (if live = 3 then 1 else 0)

/-- The next-generation flat cell data of the current grid: cell `idx` is
`write_next_tick_state` at `idx`, for `idx` in `[0, size)`. -/
def next_grid_data (loopback : Bool) (m : Matrix) : List Nat :=
  (List.range m.size).map (fun idx => (write_next_tick_state loopback m idx).getD 0)

/-- The state every strategy produces from a well-formed state: counter
bumped, the scratch buffer (fully overwritten with the next generation)
swapped into the current role, the old current grid demoted to scratch. -/
def tick_result (g : GameOfLife) : GameOfLife :=
  { g with
    ticks := g.ticks + 1
    matrix := { rows := g.backup_matrix.rows, cols := g.backup_matrix.cols
                matrix := next_grid_data g.loopback g.matrix }
    backup_matrix := g.matrix }

/-! Helper lemmas. -/

lemma opt_eq_some_getD {o : Option Nat} (h : o.isSome) : o = some (o.getD 0) := by
  cases o <;> simp_all

lemma idx_lt_of_lt (m : Matrix) (row col : Nat) (hr : row < m.rows) (hc : col < m.cols) :
    m.idx row col < m.rows * m.cols := by
  unfold Matrix.idx
  calc row * m.cols + col < row * m.cols + m.cols := by omega
    _ = (row + 1) * m.cols := by ring
    _ ≤ m.rows * m.cols := Nat.mul_le_mul_right _ (by omega)

lemma get_isSome (m : Matrix) (row col : Nat)
    (hInv : m.matrix.length = m.rows * m.cols) (hr : row < m.rows) (hc : col < m.cols) :
    (m.get row col).isSome := by
  have h : m.idx row col < m.matrix.length := by
    rw [hInv]; exact idx_lt_of_lt m row col hr hc
  unfold Matrix.get
  rw [List.getElem?_eq_getElem h]
  rfl

lemma inverse_idx_idx (m : Matrix) (row col : Nat) (hc : col < m.cols) :
    m.inverse_idx (m.idx row col) = (row, col) := by
  have hc0 : 0 < m.cols := by omega
  unfold Matrix.inverse_idx Matrix.idx
  rw [Nat.add_comm (row * m.cols) col, Nat.add_mul_div_right col row hc0,
    Nat.add_mul_mod_self_right]
  rw [Nat.div_eq_of_lt hc, Nat.mod_eq_of_lt hc]
  simp

lemma live_add_eq (m : Matrix) (row col acc : Nat) (h : (m.get row col).isSome) :
    live_add m row col acc = some (acc + (if cell_live m (row, col) then 1 else 0)) := by
  obtain ⟨v, hv⟩ := Option.isSome_iff_exists.mp h
  simp only [live_add, hv, cell_live, Option.getD_some]
  cases h1 : v == 1 <;> simp [h1]

lemma guarded_live_add_eq (cond : Prop) [Decidable cond] (m : Matrix) (row col acc : Nat)
    (h : cond → (m.get row col).isSome) :
    guarded_live_add cond m row col acc =
      some (acc + (if cond ∧ cell_live m (row, col) then 1 else 0)) := by
  by_cases hcnd : cond
  · rw [guarded_live_add, if_pos hcnd, live_add_eq m row col acc (h hcnd)]
    simp [hcnd]
  · rw [guarded_live_add, if_neg hcnd]
    simp [hcnd]

lemma ind_eq_of_iff {A B : Prop} [Decidable A] [Decidable B] (h : A ↔ B) :
    (if A then (1 : Nat) else 0) = if B then 1 else 0 := by
  simp [h]

lemma terminate_count_eq (m : Matrix) (row col : Nat)
    (hr : row < m.rows) (hc : col < m.cols) :
    terminate_live_neighbors m row col =
      (if (row < m.rows - 1 ∧ col < m.cols - 1) ∧ cell_live m (row + 1, col + 1) then 1 else 0) +
      (if (0 < row ∧ 0 < col) ∧ cell_live m (row - 1, col - 1) then 1 else 0) +
      (if (row < m.rows - 1 ∧ 0 < col) ∧ cell_live m (row + 1, col - 1) then 1 else 0) +
      (if (0 < row ∧ col < m.cols - 1) ∧ cell_live m (row - 1, col + 1) then 1 else 0) +
      (if (col < m.cols - 1) ∧ cell_live m (row, col + 1) then 1 else 0) +
      (if (0 < col) ∧ cell_live m (row, col - 1) then 1 else 0) +
      (if (row < m.rows - 1) ∧ cell_live m (row + 1, col) then 1 else 0) +
      (if (0 < row) ∧ cell_live m (row - 1, col) then 1 else 0) := by
  have e1 : ((row : Int) + 1).toNat = row + 1 := by omega
  have e2 : ((row : Int) + -1).toNat = row - 1 := by omega
  have e3 : ((row : Int) + 0).toNat = row := by omega
  have f1 : ((col : Int) + 1).toNat = col + 1 := by omega
  have f2 : ((col : Int) + -1).toNat = col - 1 := by omega
  have f3 : ((col : Int) + 0).toNat = col := by omega
  simp only [terminate_live_neighbors, moore_offsets, List.map_cons, List.map_nil,
    List.sum_cons, List.sum_nil, e1, e2, e3, f1, f2, f3]
  rw [ind_eq_of_iff (and_congr (show (0 ≤ (row : Int) + 1 ∧ (row : Int) + 1 < (m.rows : Int) ∧
        0 ≤ (col : Int) + 1 ∧ (col : Int) + 1 < (m.cols : Int)) ↔
        (row < m.rows - 1 ∧ col < m.cols - 1) by omega) Iff.rfl),
    ind_eq_of_iff (and_congr (show (0 ≤ (row : Int) + -1 ∧ (row : Int) + -1 < (m.rows : Int) ∧
        0 ≤ (col : Int) + -1 ∧ (col : Int) + -1 < (m.cols : Int)) ↔
        (0 < row ∧ 0 < col) by omega) Iff.rfl),
    ind_eq_of_iff (and_congr (show (0 ≤ (row : Int) + 1 ∧ (row : Int) + 1 < (m.rows : Int) ∧
        0 ≤ (col : Int) + -1 ∧ (col : Int) + -1 < (m.cols : Int)) ↔
        (row < m.rows - 1 ∧ 0 < col) by omega) Iff.rfl),
    ind_eq_of_iff (and_congr (show (0 ≤ (row : Int) + -1 ∧ (row : Int) + -1 < (m.rows : Int) ∧
        0 ≤ (col : Int) + 1 ∧ (col : Int) + 1 < (m.cols : Int)) ↔
        (0 < row ∧ col < m.cols - 1) by omega) Iff.rfl),
    ind_eq_of_iff (and_congr (show (0 ≤ (row : Int) + 0 ∧ (row : Int) + 0 < (m.rows : Int) ∧
        0 ≤ (col : Int) + 1 ∧ (col : Int) + 1 < (m.cols : Int)) ↔
        (col < m.cols - 1) by omega) Iff.rfl),
    ind_eq_of_iff (and_congr (show (0 ≤ (row : Int) + 0 ∧ (row : Int) + 0 < (m.rows : Int) ∧
        0 ≤ (col : Int) + -1 ∧ (col : Int) + -1 < (m.cols : Int)) ↔
        (0 < col) by omega) Iff.rfl),
    ind_eq_of_iff (and_congr (show (0 ≤ (row : Int) + 1 ∧ (row : Int) + 1 < (m.rows : Int) ∧
        0 ≤ (col : Int) + 0 ∧ (col : Int) + 0 < (m.cols : Int)) ↔
        (row < m.rows - 1) by omega) Iff.rfl),
    ind_eq_of_iff (and_congr (show (0 ≤ (row : Int) + -1 ∧ (row : Int) + -1 < (m.rows : Int) ∧
        0 ≤ (col : Int) + 0 ∧ (col : Int) + 0 < (m.cols : Int)) ↔
        (0 < row) by omega) Iff.rfl)]
  ring

lemma write_terminate_char (m : Matrix) (row col : Nat)
    (hInv : m.matrix.length = m.rows * m.cols) (hr : row < m.rows) (hc : col < m.cols) :
    write_terminate_next_tick_state m (m.idx row col) =
      some (b3s23 ((m.get row col).getD 0) (terminate_live_neighbors m row col)) := by
  have hrc := inverse_idx_idx m row col hc
  have hcur := get_isSome m row col hInv hr hc
  simp only [write_terminate_next_tick_state, hrc, Option.bind_eq_bind]
  rw [guarded_live_add_eq _ m (row + 1) (col + 1) _
    (fun h => get_isSome m _ _ hInv (by omega) (by omega))]
  simp only [Option.some_bind]
  rw [guarded_live_add_eq _ m (row - 1) (col - 1) _
    (fun h => get_isSome m _ _ hInv (by omega) (by omega))]
  simp only [Option.some_bind]
  rw [guarded_live_add_eq _ m (row + 1) (col - 1) _
    (fun h => get_isSome m _ _ hInv (by omega) (by omega))]
  simp only [Option.some_bind]
  rw [guarded_live_add_eq _ m (row - 1) (col + 1) _
    (fun h => get_isSome m _ _ hInv (by omega) (by omega))]
  simp only [Option.some_bind]
  rw [guarded_live_add_eq _ m row (col + 1) _
    (fun h => get_isSome m _ _ hInv (by omega) (by omega))]
  simp only [Option.some_bind]
  rw [guarded_live_add_eq _ m row (col - 1) _
    (fun h => get_isSome m _ _ hInv (by omega) (by omega))]
  simp only [Option.some_bind]
  rw [guarded_live_add_eq _ m (row + 1) col _
    (fun h => get_isSome m _ _ hInv (by omega) (by omega))]
  simp only [Option.some_bind]
  rw [guarded_live_add_eq _ m (row - 1) col _
    (fun h => get_isSome m _ _ hInv (by omega) (by omega))]
  simp only [Option.some_bind]
  rw [opt_eq_some_getD hcur]
  simp only [Option.some_bind, Option.getD_some, Option.pure_def]
  rw [terminate_count_eq m row col hr hc]
  simp only [Nat.zero_add]
  simp only [b3s23, beq_iff_eq]
  generalize (if (row < m.rows - 1 ∧ col < m.cols - 1) ∧ cell_live m (row + 1, col + 1)
    then (1 : Nat) else 0) = a1
  generalize (if (0 < row ∧ 0 < col) ∧ cell_live m (row - 1, col - 1)
    then (1 : Nat) else 0) = a2
  generalize (if (row < m.rows - 1 ∧ 0 < col) ∧ cell_live m (row + 1, col - 1)
    then (1 : Nat) else 0) = a3
  generalize (if (0 < row ∧ col < m.cols - 1) ∧ cell_live m (row - 1, col + 1)
    then (1 : Nat) else 0) = a4
  generalize (if col < m.cols - 1 ∧ cell_live m (row, col + 1)
    then (1 : Nat) else 0) = a5
  generalize (if 0 < col ∧ cell_live m (row, col - 1)
    then (1 : Nat) else 0) = a6
  generalize (if row < m.rows - 1 ∧ cell_live m (row + 1, col)
    then (1 : Nat) else 0) = a7
  generalize (if 0 < row ∧ cell_live m (row - 1, col)
    then (1 : Nat) else 0) = a8
  rw [Option.some_inj]
  split_ifs <;> omega

lemma wrap_inc_lt (dim coord : Nat) (h : coord < dim) : wrap_inc dim coord < dim := by
  unfold wrap_inc; split <;> omega

lemma wrap_dec_lt (dim coord : Nat) (h : coord < dim) : wrap_dec dim coord < dim := by
  unfold wrap_dec; split <;> omega

lemma wrap_mod_add_one (dim coord : Nat) (h : coord < dim) :
    wrap_mod dim ((coord : Int) + 1) = wrap_inc dim coord := by
  unfold wrap_mod wrap_inc
  rw [show ((coord : Int) + 1 + dim).toNat = coord + 1 + dim by omega]
  by_cases h2 : coord = dim - 1
  · rw [if_pos h2, show coord + 1 + dim = dim + dim by omega, Nat.add_mod_left, Nat.mod_self]
  · rw [if_neg h2, Nat.add_mod_right, Nat.mod_eq_of_lt (by omega)]

lemma wrap_mod_sub_one (dim coord : Nat) (h : coord < dim) :
    wrap_mod dim ((coord : Int) + -1) = wrap_dec dim coord := by
  unfold wrap_mod wrap_dec
  rw [show ((coord : Int) + -1 + dim).toNat = coord + dim - 1 by omega]
  by_cases h2 : coord = 0
  · rw [if_pos h2, Nat.mod_eq_of_lt (by omega)]
    omega
  · rw [if_neg h2, show coord + dim - 1 = (coord - 1) + dim by omega, Nat.add_mod_right,
      Nat.mod_eq_of_lt (by omega)]

lemma wrap_mod_zero_off (dim coord : Nat) (h : coord < dim) :
    wrap_mod dim ((coord : Int) + 0) = coord := by
  unfold wrap_mod
  rw [show ((coord : Int) + 0 + dim).toNat = coord + dim by omega, Nat.add_mod_right,
    Nat.mod_eq_of_lt h]

lemma loopback_coords_eq (m : Matrix) (row col : Nat)
    (hr : row < m.rows) (hc : col < m.cols) :
    loopback_spec_neighbor_coords m row col = loopback_neighbor_coords m row col := by
  simp only [loopback_spec_neighbor_coords, loopback_neighbor_coords, moore_offsets,
    List.map_cons, List.map_nil, wrap_mod_add_one _ _ hr, wrap_mod_sub_one _ _ hr,
    wrap_mod_zero_off _ _ hr, wrap_mod_add_one _ _ hc, wrap_mod_sub_one _ _ hc,
    wrap_mod_zero_off _ _ hc]

lemma write_loopback_char (m : Matrix) (row col : Nat)
    (hInv : m.matrix.length = m.rows * m.cols) (hr : row < m.rows) (hc : col < m.cols) :
    write_loopback_next_tick_state m (m.idx row col) =
      some (b3s23 ((m.get row col).getD 0)
        ((loopback_neighbor_coords m row col).countP (cell_live m))) := by
  have hrc := inverse_idx_idx m row col hc
  have hcur := get_isSome m row col hInv hr hc
  simp only [write_loopback_next_tick_state, hrc, Option.bind_eq_bind]
  rw [live_add_eq m _ _ _
    (get_isSome m _ _ hInv (wrap_inc_lt _ _ hr) (wrap_inc_lt _ _ hc))]
  simp only [Option.some_bind]
  rw [live_add_eq m _ _ _
    (get_isSome m _ _ hInv (wrap_dec_lt _ _ hr) (wrap_dec_lt _ _ hc))]
  simp only [Option.some_bind]
  rw [live_add_eq m _ _ _
    (get_isSome m _ _ hInv (wrap_inc_lt _ _ hr) (wrap_dec_lt _ _ hc))]
  simp only [Option.some_bind]
  rw [live_add_eq m _ _ _
    (get_isSome m _ _ hInv (wrap_dec_lt _ _ hr) (wrap_inc_lt _ _ hc))]
  simp only [Option.some_bind]
  rw [live_add_eq m _ _ _ (get_isSome m _ _ hInv hr (wrap_inc_lt _ _ hc))]
  simp only [Option.some_bind]
  rw [live_add_eq m _ _ _ (get_isSome m _ _ hInv hr (wrap_dec_lt _ _ hc))]
  simp only [Option.some_bind]
  rw [live_add_eq m _ _ _ (get_isSome m _ _ hInv (wrap_inc_lt _ _ hr) hc)]
  simp only [Option.some_bind]
  rw [live_add_eq m _ _ _ (get_isSome m _ _ hInv (wrap_dec_lt _ _ hr) hc)]
  simp only [Option.some_bind]
  rw [opt_eq_some_getD hcur]
  simp only [Option.some_bind, Option.getD_some, Option.pure_def]
  simp only [loopback_neighbor_coords, List.countP_cons, List.countP_nil]
  generalize (if cell_live m (wrap_inc m.rows row, wrap_inc m.cols col) then (1 : Nat) else 0) = a1
  generalize (if cell_live m (wrap_dec m.rows row, wrap_dec m.cols col) then (1 : Nat) else 0) = a2
  generalize (if cell_live m (wrap_inc m.rows row, wrap_dec m.cols col) then (1 : Nat) else 0) = a3
  generalize (if cell_live m (wrap_dec m.rows row, wrap_inc m.cols col) then (1 : Nat) else 0) = a4
  generalize (if cell_live m (row, wrap_inc m.cols col) then (1 : Nat) else 0) = a5
  generalize (if cell_live m (row, wrap_dec m.cols col) then (1 : Nat) else 0) = a6
  generalize (if cell_live m (wrap_inc m.rows row, col) then (1 : Nat) else 0) = a7
  generalize (if cell_live m (wrap_dec m.rows row, col) then (1 : Nat) else 0) = a8
  simp only [b3s23, beq_iff_eq]
  rw [Option.some_inj]
  split_ifs <;> omega

lemma cols_pos_of_idx_lt (m : Matrix) (idx : Nat) (hidx : idx < m.rows * m.cols) :
    0 < m.cols := by
  rcases Nat.eq_zero_or_pos m.cols with h | h
  · rw [h, Nat.mul_zero] at hidx; omega
  · exact h

lemma write_next_char (loopback : Bool) (m : Matrix) (idx : Nat)
    (hInv : m.matrix.length = m.rows * m.cols) (hidx : idx < m.rows * m.cols) :
    write_next_tick_state loopback m idx =
      some (b3s23 ((m.get (idx / m.cols) (idx % m.cols)).getD 0)
        (live_neighbors loopback m (idx / m.cols) (idx % m.cols))) := by
  have hc0 : 0 < m.cols := cols_pos_of_idx_lt m idx hidx
  have hr : idx / m.cols < m.rows := (Nat.div_lt_iff_lt_mul hc0).mpr hidx
  have hc : idx % m.cols < m.cols := Nat.mod_lt _ hc0
  have hidx_eq : m.idx (idx / m.cols) (idx % m.cols) = idx := by
    unfold Matrix.idx
    rw [Nat.mul_comm]
    exact Nat.div_add_mod idx m.cols
  cases loopback with
  | false =>
    rw [write_next_tick_state, if_neg (by simp)]
    conv_lhs => rw [← hidx_eq]
    rw [write_terminate_char m _ _ hInv hr hc]
    simp [live_neighbors]
  | true =>
    rw [write_next_tick_state, if_pos rfl]
    conv_lhs => rw [← hidx_eq]
    rw [write_loopback_char m _ _ hInv hr hc]
    simp only [live_neighbors, if_true, loopback_coords_eq m _ _ hr hc]

lemma write_next_isSome (loopback : Bool) (m : Matrix) (idx : Nat)
    (hInv : m.matrix.length = m.rows * m.cols) (hidx : idx < m.rows * m.cols) :
    (write_next_tick_state loopback m idx).isSome := by
  rw [write_next_char loopback m idx hInv hidx]; rfl

lemma writeCells_some (loopback : Bool) (m : Matrix) :
    ∀ (len start : Nat) (backup : List Nat),
    start + len ≤ backup.length →
    (∀ j, start ≤ j → j < start + len → (write_next_tick_state loopback m j).isSome) →
    ∃ res, writeCells loopback m start len backup = some res ∧
      res.length = backup.length ∧
      ∀ j, res[j]? = if start ≤ j ∧ j < start + len
        then write_next_tick_state loopback m j else backup[j]? := by
  intro len
  induction len with
  | zero =>
    intro start backup hlen hsome
    exact ⟨backup, rfl, rfl, fun j => by rw [if_neg (by omega)]⟩
  | succ n ih =>
    intro start backup hlen hsome
    have hstart : start < backup.length := by omega
    obtain ⟨v, hv⟩ := Option.isSome_iff_exists.mp (hsome start (Nat.le_refl _) (by omega))
    obtain ⟨res, heq, hl, hget⟩ := ih (start + 1) (backup.set start v)
      (by rw [List.length_set]; omega)
      (fun j h1 h2 => hsome j (by omega) (by omega))
    refine ⟨res, ?_, ?_, ?_⟩
    · rw [writeCells, if_pos hstart, hv]
      exact heq
    · rw [hl, List.length_set]
    · intro j
      by_cases h1 : start + 1 ≤ j ∧ j < start + 1 + n
      · rw [hget j, if_pos h1, if_pos (by omega)]
      · rw [hget j, if_neg h1]
        by_cases h2 : j = start
        · subst h2
          rw [if_pos (by omega), List.getElem?_set_self hstart, hv]
        · rw [List.getElem?_set_ne (fun hh => h2 hh.symm), if_neg (by omega)]

lemma par_write_cells_some (loopback : Bool) (m : Matrix) :
    ∀ (backup : List Nat) (i : Nat),
    (∀ j, i ≤ j → j < i + backup.length → (write_next_tick_state loopback m j).isSome) →
    ∃ res, par_write_cells loopback m i backup = some res ∧
      res.length = backup.length ∧
      ∀ k, res[k]? = if k < backup.length
        then write_next_tick_state loopback m (i + k) else none := by
  intro backup
  induction backup with
  | nil =>
    intro i hsome
    exact ⟨[], rfl, rfl, fun k => by simp⟩
  | cons x rest ih =>
    intro i hsome
    obtain ⟨v, hv⟩ := Option.isSome_iff_exists.mp
      (hsome i (Nat.le_refl _) (by simp only [List.length_cons]; omega))
    obtain ⟨res2, heq, hl, hget⟩ := ih (i + 1)
      (fun j h1 h2 => hsome j (by omega) (by simp only [List.length_cons]; omega))
    refine ⟨v :: res2, ?_, by simp [hl], ?_⟩
    · rw [par_write_cells, hv, heq]
    · intro k
      cases k with
      | zero =>
        simp only [List.getElem?_cons_zero, List.length_cons, Nat.add_zero]
        rw [if_pos (by omega), hv]
      | succ k2 =>
        simp only [List.getElem?_cons_succ, hget k2, List.length_cons]
        by_cases hk : k2 < rest.length
        · rw [if_pos hk, if_pos (by omega), show i + 1 + k2 = i + (k2 + 1) by omega]
        · rw [if_neg hk, if_neg (by omega)]

lemma chunk_start_le_size (size workers i : Nat) (h : i ≤ workers) :
    chunk_start size workers i ≤ size := by
  unfold chunk_start
  calc i * (size / workers) ≤ workers * (size / workers) := Nat.mul_le_mul_right _ h
    _ = size / workers * workers := Nat.mul_comm _ _
    _ ≤ size := Nat.div_mul_le_self size workers

lemma run_chunks_some (loopback : Bool) (m : Matrix) (size workers : Nat) :
    ∀ (n i : Nat) (backup : List Nat), i + n = workers → 0 < n →
    backup.length = size →
    (∀ j, j < size → (write_next_tick_state loopback m j).isSome) →
    ∃ res, run_chunks loopback m size workers (List.range' i n) backup = some res ∧
      res.length = size ∧
      ∀ j, res[j]? = if chunk_start size workers i ≤ j ∧ j < size
        then write_next_tick_state loopback m j else backup[j]? := by
  intro n
  induction n with
  | zero => intro i backup h0 h1; omega
  | succ k ih =>
    intro i backup hiw hpos hblen hsome
    rcases Nat.eq_zero_or_pos k with hk0 | hkpos
    · subst hk0
      have hieq : i = workers - 1 := by omega
      have hstart_le : chunk_start size workers i ≤ size :=
        chunk_start_le_size size workers i (by omega)
      have hend : chunk_end size workers i = size := by
        unfold chunk_end; rw [if_pos hieq]
      obtain ⟨res, heq, hl, hget⟩ := writeCells_some loopback m
        (size - chunk_start size workers i) (chunk_start size workers i) backup
        (by omega) (fun j h1 h2 => hsome j (by omega))
      refine ⟨res, ?_, by rw [hl, hblen], ?_⟩
      · simp only [List.range']
        rw [run_chunks, hend, heq]
        rfl
      · intro j
        rw [hget j]
        by_cases hj : chunk_start size workers i ≤ j ∧ j < size
        · rw [if_pos (by omega), if_pos hj]
        · rw [if_neg (by omega), if_neg hj]
    · have hne : i ≠ workers - 1 := by omega
      have hend : chunk_end size workers i =
          chunk_start size workers i + size / workers := by
        unfold chunk_end; rw [if_neg hne]
      have hstep : chunk_start size workers (i + 1) =
          chunk_start size workers i + size / workers := by
        unfold chunk_start; rw [Nat.succ_mul]
      have hnext_le : chunk_start size workers (i + 1) ≤ size :=
        chunk_start_le_size size workers (i + 1) (by omega)
      obtain ⟨res1, heq1, hl1, hget1⟩ := writeCells_some loopback m
        (size / workers) (chunk_start size workers i) backup
        (by omega) (fun j h1 h2 => hsome j (by omega))
      obtain ⟨res, heq, hl, hget⟩ := ih (i + 1) res1 (by omega) hkpos
        (by rw [hl1, hblen]) hsome
      have hsub : chunk_end size workers i - chunk_start size workers i =
          size / workers := by
        rw [hend]; exact Nat.add_sub_cancel_left _ _
      refine ⟨res, ?_, hl, ?_⟩
      · simp only [List.range']
        rw [run_chunks, hsub, heq1]
        exact heq
      · intro j
        rw [hget j]
        by_cases hj1 : chunk_start size workers i ≤ j ∧ j < size
        · by_cases hj2 : chunk_start size workers (i + 1) ≤ j
          · rw [if_pos ⟨hj2, hj1.2⟩, if_pos hj1]
          · rw [if_neg (fun hh => hj2 hh.1), hget1 j, if_pos (by omega), if_pos hj1]
        · rw [if_neg (show ¬(chunk_start size workers (i + 1) ≤ j ∧ j < size) by omega),
            hget1 j, if_neg (by omega), if_neg hj1]

lemma next_grid_data_getElem? (loopback : Bool) (m : Matrix) (j : Nat) :
    (next_grid_data loopback m)[j]? =
      if j < m.size then some ((write_next_tick_state loopback m j).getD 0) else none := by
  unfold next_grid_data
  rw [List.getElem?_map]
  by_cases hj : j < m.size
  · rw [if_pos hj, List.getElem?_range hj]
    rfl
  · rw [if_neg hj, List.getElem?_eq_none (by rw [List.length_range]; omega)]
    rfl

lemma size_eq (m : Matrix) : m.size = m.rows * m.cols := rfl

lemma serial_tick_eq (g : GameOfLife)
    (hInv : g.matrix.matrix.length = g.matrix.rows * g.matrix.cols)
    (hb : g.backup_matrix.matrix.length = g.matrix.size) :
    serial_tick g = some (tick_result g) := by
  obtain ⟨res, heq, hl, hget⟩ := writeCells_some g.loopback g.matrix g.matrix.size 0
    g.backup_matrix.matrix (by omega)
    (fun j h1 h2 => write_next_isSome _ _ _ hInv (by rw [← size_eq]; omega))
  have hres : res = next_grid_data g.loopback g.matrix := by
    apply List.ext_getElem?
    intro n
    rw [hget n, next_grid_data_getElem?]
    by_cases hn : n < g.matrix.size
    · rw [if_pos (by omega), if_pos hn]
      exact opt_eq_some_getD (write_next_isSome _ _ _ hInv (by rw [← size_eq]; omega))
    · rw [if_neg (by omega), if_neg hn]
      exact List.getElem?_eq_none (by omega)
  rw [serial_tick, heq, hres]
  rfl

lemma parallel_tick_eq (g : GameOfLife)
    (hInv : g.matrix.matrix.length = g.matrix.rows * g.matrix.cols)
    (hb : g.backup_matrix.matrix.length = g.matrix.size) :
    parallel_tick g = some (tick_result g) := by
  obtain ⟨res, heq, hl, hget⟩ := par_write_cells_some g.loopback g.matrix
    g.backup_matrix.matrix 0
    (fun j h1 h2 => write_next_isSome _ _ _ hInv (by rw [← size_eq]; omega))
  have hres : res = next_grid_data g.loopback g.matrix := by
    apply List.ext_getElem?
    intro n
    rw [hget n, next_grid_data_getElem?]
    by_cases hn : n < g.matrix.size
    · rw [if_pos (by omega), if_pos hn, Nat.zero_add]
      exact opt_eq_some_getD (write_next_isSome _ _ _ hInv (by rw [← size_eq]; omega))
    · rw [if_neg (show ¬(n < g.backup_matrix.matrix.length) by omega), if_neg hn]
  rw [parallel_tick, heq, hres]
  rfl

lemma parallel_naive_tick_eq (g : GameOfLife)
    (hInv : g.matrix.matrix.length = g.matrix.rows * g.matrix.cols)
    (hb : g.backup_matrix.matrix.length = g.matrix.size)
    (hw : 0 < g.workers) :
    parallel_naive_tick g = some (tick_result g) := by
  obtain ⟨res, heq, hl, hget⟩ := run_chunks_some g.loopback g.matrix g.matrix.size
    g.workers g.workers 0 g.backup_matrix.matrix (by omega) hw hb
    (fun j hj => write_next_isSome _ _ _ hInv (by rw [← size_eq]; omega))
  have h0 : chunk_start g.matrix.size g.workers 0 = 0 := Nat.zero_mul _
  have hres : res = next_grid_data g.loopback g.matrix := by
    apply List.ext_getElem?
    intro n
    rw [hget n, h0, next_grid_data_getElem?]
    by_cases hn : n < g.matrix.size
    · rw [if_pos (by omega), if_pos hn]
      exact opt_eq_some_getD (write_next_isSome _ _ _ hInv (by rw [← size_eq]; omega))
    · rw [if_neg (by omega), if_neg hn]
      exact List.getElem?_eq_none (by omega)
  rw [parallel_naive_tick, if_neg (by omega), List.range_eq_range', heq, hres]
  rfl

/-! Claim theorems. -/

/-- Claim C1: for every simulation state whose grids are well-formed
(current storage matches its dimensions, scratch buffer exactly as large as
the current grid), both boundary policies and every worker count ≥ 1, the
sequential, data-parallel and explicit-partitioned strategies produce
bit-identical results — in particular bit-identical next-generation current
grids — from the same pre-tick current grid. -/
theorem c1_strategy_equivalence (g : GameOfLife)
    (hInv : g.matrix.matrix.length = g.matrix.rows * g.matrix.cols)
    (hb : g.backup_matrix.matrix.length = g.matrix.size)
    (hw : 1 ≤ g.workers) :
    parallel_tick g = serial_tick g ∧ parallel_naive_tick g = serial_tick g := by
  rw [serial_tick_eq g hInv hb, parallel_tick_eq g hInv hb,
    parallel_naive_tick_eq g hInv hb (by omega)]
  exact ⟨rfl, rfl⟩

/-- Witness for C1 at a concrete 2×3 grid with 2 workers, toroidal policy. -/
theorem c1_strategy_equivalence_witness :
    parallel_tick ⟨2, 3, ⟨2, 3, [1, 0, 1, 0, 1, 0]⟩, ⟨2, 3, [7, 7, 7, 7, 7, 7]⟩, 0,
        false, false, 2, true⟩ =
      serial_tick ⟨2, 3, ⟨2, 3, [1, 0, 1, 0, 1, 0]⟩, ⟨2, 3, [7, 7, 7, 7, 7, 7]⟩, 0,
        false, false, 2, true⟩ ∧
    parallel_naive_tick ⟨2, 3, ⟨2, 3, [1, 0, 1, 0, 1, 0]⟩, ⟨2, 3, [7, 7, 7, 7, 7, 7]⟩, 0,
        false, false, 2, true⟩ =
      serial_tick ⟨2, 3, ⟨2, 3, [1, 0, 1, 0, 1, 0]⟩, ⟨2, 3, [7, 7, 7, 7, 7, 7]⟩, 0,
        false, false, 2, true⟩ :=
  c1_strategy_equivalence _ (by decide) (by decide) (by decide)

/-- Claim C2: for every well-formed grid, every in-range cell and both
boundary policies, the state written for the cell is the B3/S23 table
applied to the cell's current value and its live-neighbor count under the
active policy. -/
theorem c2_next_state_b3s23 (m : Matrix) (loopback : Bool) (row col : Nat)
    (hInv : m.matrix.length = m.rows * m.cols) (hr : row < m.rows) (hc : col < m.cols) :
    write_next_tick_state loopback m (m.idx row col) =
      some (b3s23 ((m.get row col).getD 0) (live_neighbors loopback m row col)) := by
  have hidx : m.idx row col < m.rows * m.cols := idx_lt_of_lt m row col hr hc
  have h := write_next_char loopback m (m.idx row col) hInv hidx
  have hrc := inverse_idx_idx m row col hc
  unfold Matrix.inverse_idx at hrc
  rw [Prod.mk.injEq] at hrc
  rw [hrc.1, hrc.2] at h
  exact h

/-- Witness for C2 at a concrete 3×3 grid, toroidal policy, cell (1, 2). -/
theorem c2_next_state_b3s23_witness :
    write_next_tick_state true ⟨3, 3, [0, 1, 0, 1, 1, 0, 0, 0, 1]⟩
        ((⟨3, 3, [0, 1, 0, 1, 1, 0, 0, 0, 1]⟩ : Matrix).idx 1 2) =
      some (b3s23 (((⟨3, 3, [0, 1, 0, 1, 1, 0, 0, 0, 1]⟩ : Matrix).get 1 2).getD 0)
        (live_neighbors true ⟨3, 3, [0, 1, 0, 1, 1, 0, 0, 0, 1]⟩ 1 2)) :=
  c2_next_state_b3s23 _ true 1 2 (by decide) (by decide) (by decide)

/-- Claim C7: under the toroidal policy, for every in-range cell of a
nonempty grid, the neighbor coordinates the rule consults are exactly the
8 Moore-neighborhood offsets reduced modulo the grid dimensions via
`(coord + dim) % dim`, so there are always exactly 8 neighbor reads. -/
theorem c7_loopback_neighbors (m : Matrix) (row col : Nat)
    (hr : row < m.rows) (hc : col < m.cols) :
    loopback_neighbor_coords m row col = loopback_spec_neighbor_coords m row col ∧
    (loopback_neighbor_coords m row col).length = 8 :=
  ⟨(loopback_coords_eq m row col hr hc).symm, rfl⟩

/-- Witness for C7 at a concrete 3×4 grid, corner cell (0, 3). -/
theorem c7_loopback_neighbors_witness :
    loopback_neighbor_coords ⟨3, 4, [0, 0, 0, 0, 0, 0, 0, 0, 0, 0, 0, 0]⟩ 0 3 =
      loopback_spec_neighbor_coords ⟨3, 4, [0, 0, 0, 0, 0, 0, 0, 0, 0, 0, 0, 0]⟩ 0 3 ∧
    (loopback_neighbor_coords ⟨3, 4, [0, 0, 0, 0, 0, 0, 0, 0, 0, 0, 0, 0]⟩ 0 3).length = 8 :=
  c7_loopback_neighbors _ 0 3 (by decide) (by decide)

/-- Claim C3 counterexample: constructing with the explicit-partitioned
strategy and worker count 0 is NOT rejected — `from_args` returns a normal
simulation state carrying `workers = 0` — and the fault only occurs later,
inside `tick()` (division by zero computing the chunk size). -/
theorem c3_counterexample :
    GameOfLife.from_args ⟨10, 10, false, false, true, 0⟩ (Matrix.new 1 1) =
      ⟨1, 1, Matrix.new 1 1, Matrix.new 1 1, 0, false, true, 0, false⟩ ∧
    GameOfLife.tick ⟨1, 1, Matrix.new 1 1, Matrix.new 1 1, 0, false, true, 0, false⟩ =
      none :=
  ⟨rfl, rfl⟩

/-- Claim C3 amended: `from_args` performs no worker-count validation; it
accepts workerCount = 0 together with the explicit-partitioned strategy and
the resulting state faults later, inside `tick()`, when
`parallel_naive_tick` divides the grid size by the worker count. -/
theorem c3_accepts_zero_workers (args : GameOfLifeArgs) (initial : Matrix)
    (hn : args.parallel_naive = true) (hw : args.workers = 0) :
    (GameOfLife.from_args args initial).workers = 0 ∧
    GameOfLife.tick (GameOfLife.from_args args initial) = none := by
  refine ⟨hw, ?_⟩
  rw [GameOfLife.tick]
  rw [if_pos (show (GameOfLife.from_args args initial).parallel_naive = true from hn)]
  rw [parallel_naive_tick, if_pos (show (GameOfLife.from_args args initial).workers = 0 from hw)]

/-- Witness for the amended C3 at a concrete configuration. -/
theorem c3_accepts_zero_workers_witness :
    (GameOfLife.from_args ⟨3, 3, true, false, true, 0⟩ ⟨2, 2, [1, 0, 0, 1]⟩).workers = 0 ∧
    GameOfLife.tick (GameOfLife.from_args ⟨3, 3, true, false, true, 0⟩ ⟨2, 2, [1, 0, 0, 1]⟩) =
      none :=
  c3_accepts_zero_workers _ _ rfl rfl

/-- Claim C4 counterexample: deserialization does NOT fail on malformed
input.  A jagged nested array is accepted (yielding storage of length 3
for a grid declared 2×2), and a cell value that is neither 0 nor 1 is
accepted verbatim. -/
theorem c4_counterexample :
    Matrix.deserialize [[0, 1], [1]] = Except.ok ⟨2, 2, [0, 1, 1]⟩ ∧
    (⟨2, 2, [0, 1, 1]⟩ : Matrix).matrix.length ≠
      (⟨2, 2, [0, 1, 1]⟩ : Matrix).rows * (⟨2, 2, [0, 1, 1]⟩ : Matrix).cols ∧
    Matrix.deserialize [[5]] = Except.ok ⟨1, 1, [5]⟩ :=
  ⟨rfl, by decide, rfl⟩

/-- Claim C4 amended: building a `Matrix` from an externally supplied
nested array never fails with a malformed-input error — any sequence of
u8 rows is accepted, jagged or not, 0/1 or not.  The result has `rows` =
the number of rows, `cols` = the length of the first row, and storage the
concatenation of all rows; the storage length equals `rows * cols`
whenever the input is rectangular. -/
theorem c4_accepts_any_rows (input : List (List Nat))
    (h : ∀ r ∈ input, ∀ v ∈ r, v < 256) :
    Matrix.deserialize input = Except.ok (MatrixVisitor.visit_seq input) ∧
    (MatrixVisitor.visit_seq input).rows = input.length ∧
    ((∀ r ∈ input, r.length = (MatrixVisitor.visit_seq input).cols) →
      (MatrixVisitor.visit_seq input).matrix.length =
        (MatrixVisitor.visit_seq input).rows * (MatrixVisitor.visit_seq input).cols) := by
  refine ⟨?_, rfl, ?_⟩
  · unfold Matrix.deserialize
    rw [if_pos]
    rw [List.all_eq_true]
    intro r hr
    rw [List.all_eq_true]
    intro v hv
    exact decide_eq_true (h r hr v hv)
  · intro hrect
    show input.flatten.length = input.length * (MatrixVisitor.visit_seq input).cols
    rw [List.length_flatten]
    rw [show input.map List.length =
        List.replicate input.length (MatrixVisitor.visit_seq input).cols from
      List.eq_replicate_iff.mpr
        ⟨List.length_map _ _, fun b hb => by
          obtain ⟨r, hr, hrb⟩ := List.mem_map.mp hb
          rw [← hrb]; exact hrect r hr⟩]
    exact List.sum_const_nat _ _

/-- Witness for the amended C4 on a concrete rectangular 0/1 input. -/
theorem c4_accepts_any_rows_witness :
    Matrix.deserialize [[1, 0], [0, 1]] =
      Except.ok (MatrixVisitor.visit_seq [[1, 0], [0, 1]]) ∧
    (MatrixVisitor.visit_seq [[1, 0], [0, 1]]).rows = 2 ∧
    ((∀ r ∈ [[1, 0], [0, 1]], r.length = (MatrixVisitor.visit_seq [[1, 0], [0, 1]]).cols) →
      (MatrixVisitor.visit_seq [[1, 0], [0, 1]]).matrix.length =
        (MatrixVisitor.visit_seq [[1, 0], [0, 1]]).rows *
          (MatrixVisitor.visit_seq [[1, 0], [0, 1]]).cols) :=
  c4_accepts_any_rows [[1, 0], [0, 1]] (by decide)

/-- Claim C5 counterexample: on a 2×3 grid, `get(0, 5)` has an
out-of-range column, yet it does not fault — it silently returns the value
stored for cell (1, 2), because the flattened index 0*3+5 = 5 is inside
the storage. -/
theorem c5_counterexample :
    ((⟨2, 3, [0, 0, 0, 0, 0, 1]⟩ : Matrix).get 0 5 = some 1) ∧
    ¬(5 < (⟨2, 3, [0, 0, 0, 0, 0, 1]⟩ : Matrix).cols) ∧
    (⟨2, 3, [0, 0, 0, 0, 0, 1]⟩ : Matrix).get 1 2 = some 1 := by
  decide

/-- Claim C5 amended: on a well-formed grid, `get(row, col)` faults (yields
no value) exactly when the flattened index `row*cols + col` reaches the
storage length `rows*cols`; in-range coordinates always return a stored
value, but an out-of-range `col` whose flattened index stays inside the
storage is silently remapped to a later cell instead of faulting. -/
theorem c5_get_fault_iff (m : Matrix) (row col : Nat)
    (hInv : m.matrix.length = m.rows * m.cols) :
    (m.get row col = none ↔ m.rows * m.cols ≤ row * m.cols + col) ∧
    (row < m.rows → col < m.cols → (m.get row col).isSome = true) := by
  constructor
  · unfold Matrix.get Matrix.idx
    rw [List.getElem?_eq_none_iff, hInv]
  · exact fun hr hc => get_isSome m row col hInv hr hc

/-- Witness for the amended C5 at a concrete 2×3 grid and cell (1, 7). -/
theorem c5_get_fault_iff_witness :
    ((⟨2, 3, [0, 0, 0, 0, 0, 1]⟩ : Matrix).get 1 7 = none ↔
      2 * 3 ≤ 1 * 3 + 7) ∧
    (1 < 2 → 7 < 3 →
      ((⟨2, 3, [0, 0, 0, 0, 0, 1]⟩ : Matrix).get 1 7).isSome = true) :=
  c5_get_fault_iff _ 1 7 (by decide)

/-- Claim C6: for every grid size and worker count ≥ 1 (including
non-divisible combinations and more workers than cells), the chunks of the
explicit-partitioned strategy cover every flat index in `[0, size)` exactly
once — no gaps, no overlaps. -/
theorem c6_chunk_coverage (size workers idx : Nat) (hw : 1 ≤ workers)
    (hidx : idx < size) :
    ∃! i, i < workers ∧ chunk_start size workers i ≤ idx ∧
      idx < chunk_end size workers i := by
  have hlast : chunk_end size workers (workers - 1) = size := by
    unfold chunk_end; rw [if_pos rfl]
  have disj : ∀ i1 i2, i1 < i2 → i2 < workers →
      chunk_start size workers i1 ≤ idx → idx < chunk_end size workers i1 →
      chunk_start size workers i2 ≤ idx → False := by
    intro i1 i2 h12 h2w ha1 hb1 ha2
    have hne : i1 ≠ workers - 1 := by omega
    have he1 : chunk_end size workers i1 = (i1 + 1) * (size / workers) := by
      unfold chunk_end chunk_start; rw [if_neg hne, Nat.succ_mul]
    have hle : (i1 + 1) * (size / workers) ≤ i2 * (size / workers) :=
      Nat.mul_le_mul_right _ (by omega)
    unfold chunk_start at ha2
    omega
  rcases Nat.eq_zero_or_pos (size / workers) with hcs | hcs
  · have hstart : chunk_start size workers (workers - 1) ≤ idx := by
      unfold chunk_start; rw [hcs, Nat.mul_zero]; omega
    have hend : idx < chunk_end size workers (workers - 1) := by
      rw [hlast]; exact hidx
    refine ⟨workers - 1, ⟨by omega, hstart, hend⟩, ?_⟩
    rintro y ⟨hy1, hy2, hy3⟩
    by_contra hyn
    have hzero : chunk_end size workers y = 0 := by
      unfold chunk_end chunk_start; rw [if_neg hyn, hcs]; simp
    omega
  · by_cases hq : idx / (size / workers) < workers - 1
    · have hstart : chunk_start size workers (idx / (size / workers)) ≤ idx := by
        unfold chunk_start; exact Nat.div_mul_le_self idx _
      have hend : idx < chunk_end size workers (idx / (size / workers)) := by
        have hne : idx / (size / workers) ≠ workers - 1 := by omega
        unfold chunk_end chunk_start
        rw [if_neg hne]
        have hdm := Nat.div_add_mod idx (size / workers)
        have hmod : idx % (size / workers) < size / workers := Nat.mod_lt _ (by omega)
        have hcomm : (size / workers) * (idx / (size / workers)) =
            (idx / (size / workers)) * (size / workers) := Nat.mul_comm _ _
        omega
      refine ⟨idx / (size / workers), ⟨by omega, hstart, hend⟩, ?_⟩
      rintro y ⟨hy1, hy2, hy3⟩
      rcases Nat.lt_trichotomy y (idx / (size / workers)) with h | h | h
      · exact (disj y _ h (by omega) hy2 hy3 hstart).elim
      · exact h
      · exact (disj _ y h hy1 hstart hend hy2).elim
    · have hstart : chunk_start size workers (workers - 1) ≤ idx := by
        unfold chunk_start
        have h1 : (workers - 1) * (size / workers) ≤
            (idx / (size / workers)) * (size / workers) :=
          Nat.mul_le_mul_right _ (by omega)
        have h2 := Nat.div_mul_le_self idx (size / workers)
        omega
      have hend : idx < chunk_end size workers (workers - 1) := by
        rw [hlast]; exact hidx
      refine ⟨workers - 1, ⟨by omega, hstart, hend⟩, ?_⟩
      rintro y ⟨hy1, hy2, hy3⟩
      rcases Nat.lt_trichotomy y (workers - 1) with h | h | h
      · exact (disj y _ h (by omega) hy2 hy3 hstart).elim
      · exact h
      · omega

/-- Witness for C6 at size 10 with 3 workers (non-divisible), index 7. -/
theorem c6_chunk_coverage_witness :
    ∃! i, i < 3 ∧ chunk_start 10 3 i ≤ 7 ∧ 7 < chunk_end 10 3 i :=
  c6_chunk_coverage 10 3 7 (by decide) (by decide)

lemma tick_eq (g : GameOfLife)
    (hInv : g.matrix.matrix.length = g.matrix.rows * g.matrix.cols)
    (hb : g.backup_matrix.matrix.length = g.matrix.size) :
    GameOfLife.tick g = if g.parallel_naive = true ∧ g.workers = 0 then none
      else some (tick_result g) := by
  unfold GameOfLife.tick
  by_cases hn : g.parallel_naive = true
  · rw [if_pos hn]
    by_cases hw : g.workers = 0
    · rw [if_pos ⟨hn, hw⟩, parallel_naive_tick, if_pos hw]
    · rw [if_neg (show ¬(g.parallel_naive = true ∧ g.workers = 0) from fun hh => hw hh.2),
        parallel_naive_tick_eq g hInv hb (by omega)]
  · rw [if_neg hn,
      if_neg (show ¬(g.parallel_naive = true ∧ g.workers = 0) from fun hh => hn hh.1)]
    by_cases hp : g.parallel = true
    · rw [if_pos hp, parallel_tick_eq g hInv hb]
    · rw [if_neg hp, serial_tick_eq g hInv hb]

/-- Claim C8: the post-tick current grid never depends on the pre-tick
scratch-buffer cell values: two well-formed states that differ only in
those values tick to identical results (every scratch cell is written
before the swap). -/
theorem c8_scratch_independence (g : GameOfLife) (d : List Nat)
    (hInv : g.matrix.matrix.length = g.matrix.rows * g.matrix.cols)
    (hb : g.backup_matrix.matrix.length = g.matrix.size)
    (hd : d.length = g.backup_matrix.matrix.length) :
    GameOfLife.tick g =
      GameOfLife.tick { g with backup_matrix := { g.backup_matrix with matrix := d } } := by
  have hb2 : ({ g with backup_matrix := { g.backup_matrix with matrix := d } } :
      GameOfLife).backup_matrix.matrix.length =
      ({ g with backup_matrix := { g.backup_matrix with matrix := d } } :
      GameOfLife).matrix.size := by
    show d.length = g.matrix.size
    omega
  rw [tick_eq g hInv hb,
    tick_eq { g with backup_matrix := { g.backup_matrix with matrix := d } } hInv hb2]
  rfl

/-- Witness for C8: two concrete 2×2 states whose scratch buffers hold
different garbage tick to the same result. -/
theorem c8_scratch_independence_witness :
    GameOfLife.tick ⟨2, 2, ⟨2, 2, [1, 1, 1, 0]⟩, ⟨2, 2, [9, 8, 7, 6]⟩, 0,
        true, false, 2, false⟩ =
      GameOfLife.tick ⟨2, 2, ⟨2, 2, [1, 1, 1, 0]⟩, ⟨2, 2, [0, 1, 0, 1]⟩, 0,
        true, false, 2, false⟩ :=
  c8_scratch_independence _ [0, 1, 0, 1] (by decide) (by decide) (by decide)

lemma serial_tick_ticks (g g2 : GameOfLife) (h : serial_tick g = some g2) :
    g2.ticks = g.ticks + 1 := by
  unfold serial_tick at h
  rcases hrc : writeCells g.loopback g.matrix 0 g.matrix.size g.backup_matrix.matrix
    with _ | b
  · rw [hrc] at h; cases h
  · rw [hrc] at h; cases h; rfl

lemma parallel_tick_ticks (g g2 : GameOfLife) (h : parallel_tick g = some g2) :
    g2.ticks = g.ticks + 1 := by
  unfold parallel_tick at h
  rcases hrc : par_write_cells g.loopback g.matrix 0 g.backup_matrix.matrix with _ | b
  · rw [hrc] at h; cases h
  · rw [hrc] at h; cases h; rfl

lemma parallel_naive_tick_ticks (g g2 : GameOfLife)
    (h : parallel_naive_tick g = some g2) : g2.ticks = g.ticks + 1 := by
  unfold parallel_naive_tick at h
  by_cases hw : g.workers = 0
  · rw [if_pos hw] at h; cases h
  · rw [if_neg hw] at h
    rcases hrc : run_chunks g.loopback g.matrix g.matrix.size g.workers
      (List.range g.workers) g.backup_matrix.matrix with _ | b
    · rw [hrc] at h; cases h
    · rw [hrc] at h; cases h; rfl

/-- Claim C9: the tick counter starts at 0 at construction and every
completed `tick()` call — under any strategy — increments it by exactly 1,
so it never decreases across any sequence of ticks. -/
theorem c9_tick_counter :
    (∀ (args : GameOfLifeArgs) (initial : Matrix),
      (GameOfLife.from_args args initial).ticks = 0) ∧
    (∀ g g2 : GameOfLife, GameOfLife.tick g = some g2 → g2.ticks = g.ticks + 1) := by
  refine ⟨fun args initial => rfl, fun g g2 h => ?_⟩
  unfold GameOfLife.tick at h
  by_cases hn : g.parallel_naive = true
  · rw [if_pos hn] at h
    exact parallel_naive_tick_ticks g g2 h
  · rw [if_neg hn] at h
    by_cases hp : g.parallel = true
    · rw [if_pos hp] at h
      exact parallel_tick_ticks g g2 h
    · rw [if_neg hp] at h
      exact serial_tick_ticks g g2 h

/-- Witness for C9: construction yields counter 0, and a concrete
1×1 serial tick bumps the counter from 0 to 1. -/
theorem c9_tick_counter_witness :
    (GameOfLife.from_args ⟨4, 4, false, false, false, 2⟩ (Matrix.new 4 4)).ticks = 0 ∧
    (⟨1, 1, ⟨1, 1, [0]⟩, ⟨1, 1, [1]⟩, 1, false, false, 2, false⟩ : GameOfLife).ticks =
      (⟨1, 1, ⟨1, 1, [1]⟩, ⟨1, 1, [0]⟩, 0, false, false, 2, false⟩ : GameOfLife).ticks + 1 :=
  ⟨c9_tick_counter.1 _ _, c9_tick_counter.2 _ _ (by decide)⟩

/-- Claim C10: `Matrix::new` accepts zero rows or columns and yields an
empty storage rather than failing, and a sequential tick on such a
simulation completes, writes no cells, still swaps the buffers and still
increments the counter by 1. -/
theorem c10_zero_dims (rows cols : Nat) (h : rows = 0 ∨ cols = 0) (g : GameOfLife)
    (hm : g.matrix = Matrix.new rows cols) :
    (Matrix.new rows cols).matrix = [] ∧
    serial_tick g = some { g with
      ticks := g.ticks + 1
      matrix := g.backup_matrix
      backup_matrix := g.matrix } := by
  have hsz : rows * cols = 0 := by rcases h with h | h <;> rw [h] <;> omega
  constructor
  · unfold Matrix.new
    rw [hsz]
    rfl
  · unfold serial_tick
    have hms : g.matrix.size = 0 := by
      rw [hm]; show rows * cols = 0; exact hsz
    rw [hms]
    rfl

/-- Witness for C10 on a 0×7 grid with nonzero prior tick count. -/
theorem c10_zero_dims_witness :
    (Matrix.new 0 7).matrix = [] ∧
    serial_tick ⟨0, 7, Matrix.new 0 7, ⟨0, 7, []⟩, 5, false, false, 3, true⟩ =
      some ⟨0, 7, ⟨0, 7, []⟩, Matrix.new 0 7, 6, false, false, 3, true⟩ :=
  c10_zero_dims 0 7 (Or.inl rfl) _ rfl

end Gol
